import Mathlib

/-!
Verification development for the `aardvark` retriever runner
(`aardvark/retrievers/runner.py`).

The runner is an asyncio pipeline: an account queue feeds an ARN-lookup
worker pool, which feeds a retriever (enrichment) worker pool, which feeds a
results (persistence) worker pool; failures from every stage are put on a
shared failure queue.  This file gives a shallow embedding of the pure data
flow of each loop body and of the scheduler's drain/cancel sequencing, and
proves the specification claims about them.

External collaborators (SWAG inventory, boto3/cloudaux enumeration calls, the
SQLAlchemy persistence layer, retriever plugins) are modelled as explicit
inputs: a collaborator call is represented by its outcome (`Except`/lists),
exactly at the granularity the runner observes it.
-/

namespace Aardvark

/-- A JSON-ish field value appearing in retriever result dictionaries. -/
inductive Value where
  | str (s : String)
  | nat (n : Nat)
deriving DecidableEq, Repr

/-- A retriever result dictionary (Python `dict`), as an ordered list of
key/value pairs with unique keys maintained by `Record.set`. -/
abbrev Record := List (String × Value)

/-- Dictionary lookup: the value at the first occurrence of key `k`. -/
def Record.get : Record → String → Option Value
  | [], _ => none
  | (k', v') :: r, k => if k' = k then some v' else Record.get r k

/-- Dictionary assignment `d[k] = v`: replaces the value at an existing key
in place (keeping its position), appends the pair otherwise. -/
def Record.set : Record → String → Value → Record
  | [], k, v => [(k, v)]
  | (k', v') :: r, k, v =>
      if k' = k then (k, v) :: r else (k', v') :: Record.set r k v

/-- First-of-two option choice: the left value when present, else the right.
Used to state last-write-wins lookups. -/
def pick (a b : Option Value) : Option Value :=
  match a with
  | some v => some v
  | none => b

/-- The value of the chronologically last write to field `f` in a list of
field writes, if any. -/
def lastWrite : List (String × Value) → String → Option Value
  | [], _ => none
  | p :: w, f => pick (lastWrite w f) (if p.1 = f then some p.2 else none)

/-- Apply a list of field writes to a record, in order. -/
def applyWrites (r : Record) (w : List (String × Value)) : Record :=
  w.foldl (fun acc p => Record.set acc p.1 p.2) r

/-- The seed record `{"arn": arn}` built at the top of `_run_retrievers`. -/
def seedRecord (arn : String) : Record :=
  [("arn", Value.str arn)]

/-- An underlying Python exception raised by a collaborator, identified by
its message. -/
inductive Exc where
  | err (msg : String)
deriving DecidableEq, Repr

/-- The exception types caught by `_get_swag_accounts`
(`KeyError`, `InvalidSWAGDataException`, `ClientError`). -/
inductive SwagErr where
  | keyError
  | invalidSwagData
  | clientError
deriving DecidableEq, Repr

/-- A `RetrieverException` as raised by the runner: either the bare
`raise RetrieverException from e` in `_run_retrievers`, or the
`raise RetrieverException("could not retrieve SWAG data") from e` in
`_get_swag_accounts`.  Both wrap the underlying cause. -/
inductive RetErr where
  | retrieverException (cause : Exc)
  | swagException (cause : SwagErr)
deriving DecidableEq, Repr

/-- An item on `self.failure_queue`: the ARN-lookup and retriever loops put
plain strings (accounts / ARNs), the results loop puts the whole record. -/
inductive FailureItem where
  | item (s : String)
  | record (r : Record)
deriving DecidableEq, Repr

/-- A retriever plugin's `r.run(arn, data)` call: it receives the ARN and the
record from the previous step and either returns a record or raises. -/
abbrev Retriever := String → Record → Except Exc Record

/-- A pure field-writing retriever (like the `addField` steps of the spec
scenario): returns its input record with a list of field writes applied. -/
def writerStep (w : List (String × Value)) : Retriever :=
  fun _ data => .ok (applyWrites data w)

/-- The loop body of `_run_retrievers` from an arbitrary intermediate record:
each retriever receives the record produced by the previous one; the first
raising retriever aborts the chain with `RetrieverException` wrapping its
cause. -/
def runChain : List Retriever → String → Record → Except RetErr Record
  | [], _, data => .ok data
  | r :: rest, arn, data =>
      match r arn data with
      | .ok d => runChain rest arn d
      | .error e => .error (.retrieverException e)

/-- `_run_retrievers(arn)`: runs the registered retrievers in order starting
from the seed record containing only the ARN. -/
def runRetrievers (retrievers : List Retriever) (arn : String) :
    Except RetErr Record :=
  runChain retrievers arn (seedRecord arn)

/-- Observable effects of one iteration of `_retriever_loop` on one ARN. -/
structure RetrieveEffect where
  failedArns : List String
  failurePuts : List FailureItem
  resultPuts : List Record
  acked : Bool
deriving DecidableEq, Repr

/-- One iteration of `_retriever_loop`: on a chain failure the ARN is
appended to `self.failed_arns` and put on the failure queue and the loop
`continue`s; on success the record is put on the results queue.  In both
branches `task_done` is called on the ARN queue. -/
def retrieverLoopStep (retrievers : List Retriever) (arn : String) :
    RetrieveEffect :=
  match runRetrievers retrievers arn with
  | .error _ => ⟨[arn], [.item arn], [], true⟩
  | .ok data => ⟨[], [], [data], true⟩

/-- Observable effects of one iteration of `_results_loop` on one record. -/
structure ResultsEffect where
  writesIssued : List (List (Value × Value))
  failurePuts : List FailureItem
  acked : Bool
deriving DecidableEq, Repr

/-- One iteration of `_results_loop` on a dequeued record `data`, given the
storage collaborator `store` (`persistence.store_role_data`).

The `data["arn"]` lookup in the debug log line sits outside the
`try`/`except`, so a record with no `"arn"` key crashes the worker (outer
`.error`).  Inside the `try`, the call argument is the one-entry dict
`\x7bdata["arn"]: data["access_advisor"]\x7d`: a missing `"access_advisor"`
key raises before any write is issued, and a raising store call is caught the
same way; either failure puts the whole record on the failure queue.
`task_done` is called after the `try`/`except` in all caught cases. -/
def resultsLoopStep (store : List (Value × Value) → Except Exc Unit)
    (data : Record) : Except Exc ResultsEffect :=
  match Record.get data "arn" with
  | none => .error (.err "KeyError: arn")
  | some arnVal =>
      match Record.get data "access_advisor" with
      | none => .ok ⟨[], [.record data], true⟩
      | some aa =>
          match store [(arnVal, aa)] with
          | .ok _ => .ok ⟨[[(arnVal, aa)]], [], true⟩
          | .error _ => .ok ⟨[[(arnVal, aa)]], [.record data], true⟩

/-- `_results_loop` processed over a list of dequeued records in order; a
worker crash (uncaught exception) aborts the remaining iterations. -/
def resultsLoopRun (store : List (Value × Value) → Except Exc Unit) :
    List Record → Except Exc (List ResultsEffect)
  | [] => .ok []
  | d :: rest =>
      match resultsLoopStep store d with
      | .error e => .error e
      | .ok eff => (resultsLoopRun store rest).map (fun l => eff :: l)

/-- A storage collaborator that accepts every write. -/
def storeAccept : List (Value × Value) → Except Exc Unit :=
  fun _ => .ok ()

/-- All writes issued to the storage collaborator when the retriever loop
processes `arns` and the results loop processes every record the retriever
loop put on the results queue. -/
def storageWrites (store : List (Value × Value) → Except Exc Unit)
    (retrievers : List Retriever) (arns : List String) :
    List (List (Value × Value)) :=
  ((arns.map (retrieverLoopStep retrievers)).flatMap
      (fun eff => eff.resultPuts)).flatMap
    (fun data =>
      match resultsLoopStep store data with
      | .ok eff => eff.writesIssued
      | .error _ => [])

/-- The inputs `_get_arns_for_account` consumes for one account, modelled as
the outcomes of its collaborator calls in program order:
`boto3_cached_conn`, `list_roles`, `list_users`, and the two paginators.
A paginator is a list of pages (each a list of ARNs) together with an
optional exception raised by the page iteration after those pages. -/
structure EnumSource where
  conn : Option Exc
  roles : Except Exc (List String)
  users : Except Exc (List String)
  policyPages : List (List String) × Option Exc
  groupPages : List (List String) × Option Exc

/-- `_get_arns_for_account`: the ARNs put on the ARN queue, in order, and the
exception that escaped the call, if any.  Each collaborator call happens
after all puts of the previous one, so an exception preserves every ARN
already put. -/
def getArnsForAccount (src : EnumSource) : List String × Option Exc :=
  match src.conn with
  | some e => ([], some e)
  | none =>
      match src.roles with
      | .error e => ([], some e)
      | .ok roleArns =>
          match src.users with
          | .error e => (roleArns, some e)
          | .ok userArns =>
              match src.policyPages with
              | (pp, some e) => (roleArns ++ userArns ++ pp.flatten, some e)
              | (pp, none) =>
                  (roleArns ++ userArns ++ pp.flatten
                      ++ src.groupPages.1.flatten,
                    src.groupPages.2)

/-- An observable event of one `_arn_lookup_loop` iteration: a put on the
ARN queue, a put on the failure queue, or `task_done` on the account
queue. -/
inductive LookupEvent where
  | putArn (a : String)
  | putFailure (f : FailureItem)
  | ack
deriving DecidableEq, Repr

/-- Whether an event is the `task_done` acknowledgement. -/
def LookupEvent.isAck : LookupEvent → Bool
  | .ack => true
  | _ => false

/-- Whether an event is a failure-queue put. -/
def LookupEvent.isFailurePut : LookupEvent → Bool
  | .putFailure _ => true
  | _ => false

/-- The ARN carried by an ARN-queue put, if the event is one. -/
def LookupEvent.arnOf : LookupEvent → Option String
  | .putArn a => some a
  | _ => none

/-- The event trace of one `_arn_lookup_loop` iteration on one account:
the puts performed inside `_get_arns_for_account`, then, if it raised, one
failure-queue put of the account from the `except` branch, then the
unconditional `task_done`. -/
def arnLookupLoopBody (src : EnumSource) (account : String) :
    List LookupEvent :=
  ((getArnsForAccount src).1.map LookupEvent.putArn)
    ++ (match (getArnsForAccount src).2 with
        | some _ => [LookupEvent.putFailure (.item account)]
        | none => [])
    ++ [LookupEvent.ack]

/-- The compiled pattern `re_account_id = re.compile(r"\d\x7b12\x7d")` used
via `.match`, i.e. anchored at the start only: the token's first twelve
characters exist and are digits. -/
def reAccountIdMatch (s : String) : Bool :=
  decide (12 ≤ s.length) && (s.toList.take 12).all Char.isDigit

/-- The first loop of `_queue_accounts`, with Python's exact
iterate-while-mutating semantics: the list iterator holds a position `i`
into the (mutated) list; a matching token is put on the account queue and
removed from the list (`list.remove` deletes the first occurrence), after
which the iterator still advances to position `i + 1` of the shortened
list.  Returns the final list (tokens left for name resolution) and the
tokens put on the account queue, in order. -/
def queueLiteralIds (i : Nat) (accounts : List String)
    (queued : List String) : List String × List String :=
  if h : i < accounts.length then
    let a := accounts[i]
    if reAccountIdMatch a then
      queueLiteralIds (i + 1) (accounts.erase a) (queued ++ [a])
    else
      queueLiteralIds (i + 1) accounts queued
  else
    (accounts, queued)
termination_by accounts.length - i
decreasing_by
  · have hle := (List.erase_sublist (accounts[i]) accounts).length_le
    omega
  · omega

/-- A SWAG inventory account as `_queue_accounts` reads it: `id` and
`schemaVersion` are accessed by direct indexing (required), `name` via
`.get` (optional), and the alias field via `.get(alias_key, [])` where
`alias_key` is `"aliases"` for schema version `"2"` and `"alias"`
otherwise. -/
structure SwagAccount where
  id : String
  name : Option String
  schemaVersion : String
  aliases : List String
  aliasField : List String
deriving DecidableEq, Repr

/-- The alias list `_queue_accounts` iterates for an account, selected by
schema version. -/
def swagAliases (a : SwagAccount) : List String :=
  if a.schemaVersion = "2" then a.aliases else a.aliasField

/-- The check `account.get("name") in accounts`: a missing name never
matches. -/
def nameMatches (acct : SwagAccount) (accounts : List String) : Bool :=
  match acct.name with
  | some n => accounts.contains n
  | none => false

/-- The second loop of `_queue_accounts` over the SWAG listing: a name match
puts the account id once and `continue`s to the next account; otherwise
every alias found in the requested-token list puts the account id — the
`continue` inside the alias loop only advances the alias loop, so one id is
put per matching alias. -/
def queueMatchingAccounts (allAccounts : List SwagAccount)
    (accounts : List String) : List String :=
  allAccounts.foldl
    (fun queued acct =>
      if nameMatches acct accounts then
        queued ++ [acct.id]
      else
        queued ++ (swagAliases acct).foldl
          (fun q al => if accounts.contains al then q ++ [acct.id] else q)
          [])
    []

/-- `_get_swag_accounts`, with the SWAG collaborator modelled by its
outcome: a caught `KeyError`/`InvalidSWAGDataException`/`ClientError` is
re-raised as `RetrieverException("could not retrieve SWAG data")` wrapping
the cause. -/
def getSwagAccounts (inv : Except SwagErr (List SwagAccount)) :
    Except RetErr (List SwagAccount) :=
  match inv with
  | .error e => .error (.swagException e)
  | .ok l => .ok l

/-- `_queue_accounts(account_names)`: literal account ids are queued by the
first loop, then the SWAG listing is fetched (raising aborts the call) and
matching accounts are queued by the second loop.  The returned list is the
full content put on the account queue, in order. -/
def queueAccounts (accountNames : List String)
    (inv : Except SwagErr (List SwagAccount)) : Except RetErr (List String) :=
  match getSwagAccounts inv with
  | .error e => .error e
  | .ok allAccounts =>
      .ok ((queueLiteralIds 0 accountNames []).2
        ++ queueMatchingAccounts allAccounts
            (queueLiteralIds 0 accountNames []).1)

/-- `_queue_all_accounts`: every id of the SWAG listing is queued. -/
def queueAllAccounts (inv : Except SwagErr (List SwagAccount)) :
    Except RetErr (List String) :=
  match getSwagAccounts inv with
  | .error e => .error e
  | .ok accts => .ok (accts.map (fun a => a.id))

/-- The inputs of `run(accounts, arns)`: the two optional argument lists
(`[]` models both `None` and an empty list — Python truthiness treats them
alike), the SWAG collaborator outcome, and the configured
`updater_num_threads` pool size. -/
structure RunInput where
  accounts : List String
  arns : List String
  inventory : Except SwagErr (List SwagAccount)
  numWorkers : Nat

/-- What `run` has set up by the time all `create_task` calls are done:
initial queue contents and the number of workers started per pool. -/
structure RunSetup where
  arnQueueInit : List String
  accountQueueInit : List String
  arnLookupWorkers : Nat
  retrieverWorkers : Nat
  resultsWorkers : Nat
deriving DecidableEq, Repr

/-- The seeding and worker-launch phase of `run`: if `arns` is truthy they
are queued and account lookup is skipped entirely (no ARN-lookup workers);
otherwise the account queue is seeded from `_queue_accounts` or
`_queue_all_accounts` — either raise propagates out of `run` before any
`create_task` — and `num_workers` ARN-lookup workers are started.
`num_workers` retriever and results workers are always started. -/
def runSetup (inp : RunInput) : Except RetErr RunSetup :=
  if inp.arns.isEmpty then
    match
      (if !inp.accounts.isEmpty then queueAccounts inp.accounts inp.inventory
       else queueAllAccounts inp.inventory) with
    | .error e => .error e
    | .ok accQ =>
        .ok ⟨[], accQ, inp.numWorkers, inp.numWorkers, inp.numWorkers⟩
  else
    .ok ⟨inp.arns, [], 0, inp.numWorkers, inp.numWorkers⟩

/-- The outcome of a completed `run`: the setup it performed and the failure
queue content it logged at the end. -/
structure RunOutcome where
  setup : RunSetup
  failuresLogged : List FailureItem
deriving DecidableEq, Repr

/-- `run` end to end, with the failures collected on the failure queue
during the running phase passed in as `collected`: after a successful setup
nothing in `run` raises — the joins, `cancel`, the failure-drain loop (which
only logs each item), and `gather(..., return_exceptions=True)` all return
normally — so `run` returns normally and logs exactly the collected
failures. -/
def runModel (inp : RunInput) (collected : List FailureItem) :
    Except RetErr RunOutcome :=
  match runSetup inp with
  | .error e => .error e
  | .ok s => .ok ⟨s, collected⟩

/-- The number of worker tasks `run` created, zero when it raised during
seeding (every `create_task` is after the seeding calls). -/
def tasksStarted : Except RetErr RunOutcome → Nat
  | .error _ => 0
  | .ok o =>
      o.setup.arnLookupWorkers + o.setup.retrieverWorkers
        + o.setup.resultsWorkers

/-- The scheduler's program position in the tail of `run`: before the first
`join`, after each of the three `join` calls (account, ARN, results queue, in
source order), after `cancel`, and after `run` returned. -/
inductive Pc where
  | running
  | accJoined
  | arnJoined
  | resJoined
  | cancelled
  | returned
deriving DecidableEq, Repr

/-- How far through the drain/cancel/return sequence a position is. -/
def Pc.rank : Pc → Nat
  | .running => 0
  | .accJoined => 1
  | .arnJoined => 2
  | .resJoined => 3
  | .cancelled => 4
  | .returned => 5

/-- A configuration of the three joined queues plus the scheduler position.
An account item is abstracted to the list of ARN behaviours it will emit
when its lookup completes; an ARN item to whether its retrieval produces a
record (`true`) or fails (`false`); a record item has no downstream queue
effect.  `pending` holds items put but not yet gotten, `inflight` items
gotten but not yet `task_done` — `join` returns only when both are empty
(`unfinished_tasks == 0`). -/
structure PipeState where
  accPending : List (List Bool)
  accInflight : List (List Bool)
  arnPending : List Bool
  arnInflight : List Bool
  resPending : Nat
  resInflight : Nat
  pc : Pc

/-- The account queue has no pending and no in-flight items. -/
def accDrained (s : PipeState) : Prop :=
  s.accPending = [] ∧ s.accInflight = []

/-- The ARN queue has no pending and no in-flight items. -/
def arnDrained (s : PipeState) : Prop :=
  s.arnPending = [] ∧ s.arnInflight = []

/-- The results queue has no pending and no in-flight items. -/
def resDrained (s : PipeState) : Prop :=
  s.resPending = 0 ∧ s.resInflight = 0

/-- A state `run` can be in right after setup: seeding may have put items on
the account queue and/or the ARN queue, nothing is in flight, the results
queue is empty, and the scheduler sits before the first `join`. -/
def InitState (s : PipeState) : Prop :=
  s.accInflight = [] ∧ s.arnInflight = [] ∧ s.resPending = 0
    ∧ s.resInflight = 0 ∧ s.pc = .running

/-- One step of the pipeline: a worker gets an item, a worker finishes an
item (emitting all its downstream puts before its `task_done`, as every loop
body does), or the scheduler advances — each `join` only when its queue is
drained, then `cancel`, then return.  Worker steps are allowed at every
scheduler position, which over-approximates the real cancellation
behaviour. -/
inductive Step : PipeState → PipeState → Prop where
  | accGet (s : PipeState) (a : List Bool) (rest : List (List Bool)) :
      s.accPending = a :: rest →
      Step s { s with accPending := rest,
                      accInflight := s.accInflight ++ [a] }
  | accDone (s : PipeState) (l₁ : List (List Bool)) (a : List Bool)
      (l₂ : List (List Bool)) :
      s.accInflight = l₁ ++ a :: l₂ →
      Step s { s with accInflight := l₁ ++ l₂,
                      arnPending := s.arnPending ++ a }
  | arnGet (s : PipeState) (b : Bool) (rest : List Bool) :
      s.arnPending = b :: rest →
      Step s { s with arnPending := rest,
                      arnInflight := s.arnInflight ++ [b] }
  | arnDone (s : PipeState) (l₁ : List Bool) (b : Bool) (l₂ : List Bool) :
      s.arnInflight = l₁ ++ b :: l₂ →
      Step s { s with arnInflight := l₁ ++ l₂,
                      resPending := s.resPending + (if b then 1 else 0) }
  | resGet (s : PipeState) :
      0 < s.resPending →
      Step s { s with resPending := s.resPending - 1,
                      resInflight := s.resInflight + 1 }
  | resDone (s : PipeState) :
      0 < s.resInflight →
      Step s { s with resInflight := s.resInflight - 1 }
  | joinAcc (s : PipeState) :
      s.pc = .running → s.accPending = [] → s.accInflight = [] →
      Step s { s with pc := .accJoined }
  | joinArn (s : PipeState) :
      s.pc = .accJoined → s.arnPending = [] → s.arnInflight = [] →
      Step s { s with pc := .arnJoined }
  | joinRes (s : PipeState) :
      s.pc = .arnJoined → s.resPending = 0 → s.resInflight = 0 →
      Step s { s with pc := .resJoined }
  | cancelWorkers (s : PipeState) :
      s.pc = .resJoined →
      Step s { s with pc := .cancelled }
  | finishRun (s : PipeState) :
      s.pc = .cancelled →
      Step s { s with pc := .returned }

/-- Zero or more pipeline steps. -/
def Reachable : PipeState → PipeState → Prop :=
  Relation.ReflTransGen Step

/-- The scheduler-phase invariant: every queue whose `join` the scheduler
has passed is, and stays, drained. -/
def PipeInv (s : PipeState) : Prop :=
  (1 ≤ s.pc.rank → accDrained s) ∧ (2 ≤ s.pc.rank → arnDrained s)
    ∧ (3 ≤ s.pc.rank → resDrained s)

theorem pick_none_right (a : Option Value) : pick a none = a := by
  cases a <;> rfl

theorem pick_assoc (a b c : Option Value) :
    pick (pick a b) c = pick a (pick b c) := by
  cases a <;> rfl

theorem record_get_set (r : Record) (k : String) (v : Value) (f : String) :
    Record.get (Record.set r k v) f
      = if k = f then some v else Record.get r f := by
  induction r with
  | nil => simp [Record.set, Record.get]
  | cons p r ih =>
      obtain ⟨k', v'⟩ := p
      by_cases h1 : k' = k
      · subst h1
        by_cases h2 : k' = f <;> simp [Record.set, Record.get, h2]
      · by_cases h2 : k' = f
        · subst h2
          have h3 : ¬(k = k') := fun h => h1 h.symm
          simp [Record.set, Record.get, h1, h3]
        · simp [Record.set, Record.get, h1, h2, ih]

theorem record_get_applyWrites (w : List (String × Value)) (r : Record)
    (f : String) :
    Record.get (applyWrites r w) f = pick (lastWrite w f) (Record.get r f) := by
  induction w generalizing r with
  | nil => simp [applyWrites, lastWrite, pick]
  | cons p w ih =>
      have hstep : applyWrites r (p :: w) = applyWrites (Record.set r p.1 p.2) w := by
        simp [applyWrites]
      rw [hstep, ih, record_get_set]
      show _ = pick (pick (lastWrite w f) _) _
      rw [pick_assoc]
      by_cases h : p.1 = f <;> simp [h, pick]

theorem lastWrite_append (w₁ w₂ : List (String × Value)) (f : String) :
    lastWrite (w₁ ++ w₂) f = pick (lastWrite w₂ f) (lastWrite w₁ f) := by
  induction w₁ with
  | nil => simp [lastWrite, pick_none_right]
  | cons p w₁ ih =>
      show pick (lastWrite (w₁ ++ w₂) f) _ = pick _ (pick (lastWrite w₁ f) _)
      rw [ih, pick_assoc]

theorem record_get_foldl_applyWrites (ws : List (List (String × Value)))
    (r : Record) (f : String) :
    Record.get (ws.foldl applyWrites r) f
      = pick (lastWrite ws.flatten f) (Record.get r f) := by
  induction ws generalizing r with
  | nil => simp [lastWrite, pick]
  | cons w ws ih =>
      have h1 : (w :: ws).foldl applyWrites r = ws.foldl applyWrites (applyWrites r w) := by
        simp
      have h2 : (w :: ws).flatten = w ++ ws.flatten := by simp
      rw [h1, ih, record_get_applyWrites, h2, lastWrite_append, pick_assoc]

theorem runChain_writers (ws : List (List (String × Value))) (arn : String)
    (r : Record) :
    runChain (ws.map writerStep) arn r = .ok (ws.foldl applyWrites r) := by
  induction ws generalizing r with
  | nil => rfl
  | cons w ws ih => simp [runChain, writerStep, ih]

theorem runChain_append (l₁ l₂ : List Retriever) (arn : String) (d : Record) :
    runChain (l₁ ++ l₂) arn d
      = (match runChain l₁ arn d with
         | .ok d' => runChain l₂ arn d'
         | .error e => .error e) := by
  induction l₁ generalizing d with
  | nil => rfl
  | cons r l₁ ih =>
      show runChain (r :: (l₁ ++ l₂)) arn d = _
      simp only [runChain]
      cases r arn d with
      | ok d' => simpa using ih d'
      | error e => rfl

/-- C4: for every identifier processed successfully with field-writing steps
`writers`, the chain is the left fold of the steps in registration order over
the seed record containing only the identifier, and the final record at any
field holds the last write to that field across all steps, with the seed
record as fallback — so every written field is present and a later step's
write overrides an earlier one's. -/
theorem chain_left_fold_last_write_wins
    (writers : List (List (String × Value))) (arn f : String) :
    runRetrievers (writers.map writerStep) arn
      = .ok (writers.foldl applyWrites (seedRecord arn)) ∧
    Record.get (writers.foldl applyWrites (seedRecord arn)) f
      = pick (lastWrite writers.flatten f) (Record.get (seedRecord arn) f) := by
  exact ⟨runChain_writers writers arn (seedRecord arn),
    record_get_foldl_applyWrites writers (seedRecord arn) f⟩

/-- C5: when the chain for an identifier fails at some step, the failure is a
`RetrieverException` wrapping that step's underlying cause, the result is the
same with or without the remaining steps (they are not applied), the
retriever loop records the identifier as failed, puts it on the failure
queue, acknowledges it, and puts nothing on the results queue — so no record
for the identifier reaches the storage sink. -/
theorem chain_failure_aborts_and_isolates
    (pre post : List Retriever) (rf : Retriever) (arn : String)
    (d : Record) (e : Exc)
    (hpre : runChain pre arn (seedRecord arn) = .ok d)
    (hfail : rf arn d = .error e) :
    runRetrievers (pre ++ rf :: post) arn = .error (.retrieverException e) ∧
    runRetrievers (pre ++ [rf]) arn = .error (.retrieverException e) ∧
    retrieverLoopStep (pre ++ rf :: post) arn
      = ⟨[arn], [.item arn], [], true⟩ ∧
    ∀ store, storageWrites store (pre ++ rf :: post) [arn] = [] := by
  have hfull : runRetrievers (pre ++ rf :: post) arn
      = .error (.retrieverException e) := by
    unfold runRetrievers
    rw [runChain_append, hpre]
    simp [runChain, hfail]
  have hone : runRetrievers (pre ++ [rf]) arn
      = .error (.retrieverException e) := by
    unfold runRetrievers
    rw [runChain_append, hpre]
    simp [runChain, hfail]
  have hloop : retrieverLoopStep (pre ++ rf :: post) arn
      = ⟨[arn], [.item arn], [], true⟩ := by
    simp [retrieverLoopStep, hfull]
  refine ⟨hfull, hone, hloop, fun store => ?_⟩
  simp [storageWrites, hloop]

/-- A concrete run of C5's theorem: a one-step prefix writing field `"a"`,
then a failing step, then a discarded tail step. -/
theorem chain_failure_aborts_and_isolates_witness :
    retrieverLoopStep
        ([writerStep [("a", Value.nat 1)]]
          ++ (fun _ _ => .error (Exc.err "boom")) :: [writerStep []]) "r1"
      = ⟨["r1"], [.item "r1"], [], true⟩ := by
  exact (chain_failure_aborts_and_isolates
    [writerStep [("a", Value.nat 1)]] [writerStep []]
    (fun _ _ => .error (Exc.err "boom")) "r1"
    [("arn", Value.str "r1"), ("a", Value.nat 1)] (Exc.err "boom")
    (by rfl) rfl).2.2.1

/-- C1 (counterexample): in the spec scenario — identifier `"id:alpha"`,
chain `addField("x",1)` then `addField("y",2)` — the final record is the
identifier plus the two fields, but the persistence loop issues no storage
write at all for it (the record has no `"access_advisor"` entry, so the
single-entry dict construction raises) and instead routes the whole record
to the failure queue; the persisted record is not the full record. -/
theorem results_scenario_persists_nothing :
    runRetrievers
        [writerStep [("x", Value.nat 1)], writerStep [("y", Value.nat 2)]]
        "id:alpha"
      = .ok [("arn", Value.str "id:alpha"), ("x", Value.nat 1),
             ("y", Value.nat 2)] ∧
    resultsLoopStep storeAccept
        [("arn", Value.str "id:alpha"), ("x", Value.nat 1),
         ("y", Value.nat 2)]
      = .ok ⟨[], [.record [("arn", Value.str "id:alpha"), ("x", Value.nat 1),
                          ("y", Value.nat 2)]], true⟩ := by
  exact ⟨rfl, rfl⟩

/-- C1 (amended): every write the persistence loop issues to the storage
collaborator is the single-entry mapping from the record's `"arn"` value to
the record's `"access_advisor"` value — the value stored is that one field,
not the full record. -/
theorem results_write_single_entry_access_advisor
    (store : List (Value × Value) → Except Exc Unit) (data : Record)
    (eff : ResultsEffect) (w : List (Value × Value))
    (h : resultsLoopStep store data = .ok eff) (hw : w ∈ eff.writesIssued) :
    ∃ a v, w = [(a, v)] ∧ Record.get data "arn" = some a ∧
      Record.get data "access_advisor" = some v := by
  cases harn : Record.get data "arn" with
  | none => simp [resultsLoopStep, harn] at h
  | some a =>
      cases haa : Record.get data "access_advisor" with
      | none =>
          simp [resultsLoopStep, harn, haa] at h
          rw [← h] at hw
          simp at hw
      | some v =>
          refine ⟨a, v, ?_, rfl, rfl⟩
          cases hst : store [(a, v)] with
          | ok u =>
              simp [resultsLoopStep, harn, haa, hst] at h
              rw [← h] at hw
              simpa using hw
          | error e =>
              simp [resultsLoopStep, harn, haa, hst] at h
              rw [← h] at hw
              simpa using hw

/-- A concrete run of C1's amended theorem: a record carrying an
`"access_advisor"` field is written as exactly that single entry. -/
theorem results_write_single_entry_access_advisor_witness :
    ∃ a v, [(Value.str "a", Value.nat 7)] = [(a, v)] ∧
      Record.get [("arn", Value.str "a"), ("access_advisor", Value.nat 7)]
        "arn" = some a ∧
      Record.get [("arn", Value.str "a"), ("access_advisor", Value.nat 7)]
        "access_advisor" = some v := by
  exact results_write_single_entry_access_advisor storeAccept
    [("arn", Value.str "a"), ("access_advisor", Value.nat 7)]
    ⟨[[(Value.str "a", Value.nat 7)]], [], true⟩
    [(Value.str "a", Value.nat 7)] (by rfl) (by simp)

/-- C10: a dequeued record that has an `"arn"` value but no
`"access_advisor"` field makes the storage call fail before any write is
issued; the error branch puts the entire record on the failure queue, the
queue item is still acknowledged, and the worker goes on to process the
remaining records unchanged. -/
theorem results_missing_access_advisor_isolated
    (store : List (Value × Value) → Except Exc Unit) (data : Record)
    (rest : List Record) (a : Value)
    (harn : Record.get data "arn" = some a)
    (haa : Record.get data "access_advisor" = none) :
    resultsLoopStep store data = .ok ⟨[], [.record data], true⟩ ∧
    resultsLoopRun store (data :: rest)
      = (resultsLoopRun store rest).map
          (fun l => ResultsEffect.mk [] [.record data] true :: l) := by
  have hstep : resultsLoopStep store data = .ok ⟨[], [.record data], true⟩ := by
    simp [resultsLoopStep, harn, haa]
  exact ⟨hstep, by simp [resultsLoopRun, hstep]⟩

/-- A concrete run of C10's theorem: the record lacking `"access_advisor"`
is routed to the failure queue, acknowledged, and the next record is still
processed. -/
theorem results_missing_access_advisor_isolated_witness :
    resultsLoopStep storeAccept [("arn", Value.str "a"), ("x", Value.nat 1)]
      = .ok ⟨[], [.record [("arn", Value.str "a"), ("x", Value.nat 1)]],
             true⟩ ∧
    resultsLoopRun storeAccept
        [[("arn", Value.str "a"), ("x", Value.nat 1)],
         [("arn", Value.str "b"), ("access_advisor", Value.nat 2)]]
      = (resultsLoopRun storeAccept
          [[("arn", Value.str "b"), ("access_advisor", Value.nat 2)]]).map
          (fun l => ResultsEffect.mk []
            [.record [("arn", Value.str "a"), ("x", Value.nat 1)]] true
            :: l) := by
  exact results_missing_access_advisor_isolated storeAccept
    [("arn", Value.str "a"), ("x", Value.nat 1)]
    [[("arn", Value.str "b"), ("access_advisor", Value.nat 2)]]
    (Value.str "a") rfl rfl

/-- C2: with requested token list `["prod"]` and one inventory account whose
alias list contains `"prod"` twice, `_queue_accounts` puts the account id on
the account queue twice — once per matching alias, because the `continue`
in the alias loop only advances the alias loop — contradicting the claim
that an id is enqueued at most once per requested token. -/
theorem duplicate_alias_queues_id_twice :
    queueAccounts ["prod"]
        (.ok [⟨"222222222222", some "production", "2", ["prod", "prod"], []⟩])
      = .ok ["222222222222", "222222222222"] := by
  simp +decide [queueAccounts, getSwagAccounts, queueLiteralIds,
    queueMatchingAccounts, swagAliases, nameMatches, List.erase]

/-- C3: with two consecutive literal 12-digit tokens, the first loop of
`_queue_accounts` pushes only the first token: removing a matched token
while iterating makes the iterator skip the next token, so the second —
although it matches the account-id pattern — is left in the token list and
treated as a name needing inventory resolution (here: an empty inventory,
so it is dropped). -/
theorem consecutive_literal_id_skipped :
    reAccountIdMatch "222222222222" = true ∧
    queueLiteralIds 0 ["111111111111", "222222222222"] []
      = (["222222222222"], ["111111111111"]) ∧
    queueAccounts ["111111111111", "222222222222"] (.ok [])
      = .ok ["111111111111"] := by
  refine ⟨by decide, ?_, ?_⟩
  · simp +decide [queueLiteralIds, List.erase]
  · simp +decide [queueAccounts, getSwagAccounts, queueLiteralIds,
      queueMatchingAccounts, List.erase]

theorem getLast?_append_singleton (xs : List LookupEvent) (a : LookupEvent) :
    (xs ++ [a]).getLast? = some a := by
  rw [List.getLast?_append_cons]
  rfl

theorem countP_isAck_map_putArn (l : List String) :
    (l.map LookupEvent.putArn).countP LookupEvent.isAck = 0 := by
  induction l with
  | nil => rfl
  | cons a l ih => simp [List.countP_cons, LookupEvent.isAck, ih]

theorem countP_isFailurePut_map_putArn (l : List String) :
    (l.map LookupEvent.putArn).countP LookupEvent.isFailurePut = 0 := by
  induction l with
  | nil => rfl
  | cons a l ih => simp [List.countP_cons, LookupEvent.isFailurePut, ih]

theorem filterMap_arnOf_map_putArn (l : List String) :
    (l.map LookupEvent.putArn).filterMap LookupEvent.arnOf = l := by
  induction l with
  | nil => rfl
  | cons a l ih => simp [LookupEvent.arnOf, ih]

theorem filterMap_arnOf_comp_putArn (l : List String) :
    l.filterMap (LookupEvent.arnOf ∘ LookupEvent.putArn) = l := by
  induction l with
  | nil => rfl
  | cons a l ih => simp [LookupEvent.arnOf, Function.comp, ih]

/-- C6: one ARN-lookup iteration acknowledges the account exactly once and
as its very last action — only after every enumeration call completed or one
raised; a raising call produces exactly one failure-queue event (the
account) and a clean run none; the ARN-queue puts of the iteration are
exactly the ARNs emitted up to the failure point, which stay queued with no
rollback — on a failure in `list_users` the role ARNs are kept, on a failure
in the policy paginator the role and user ARNs and the pages already
iterated are kept, and with no failure all four enumerations emit. -/
theorem enumeration_failure_single_event_ack_last (src : EnumSource)
    (account : String) :
    (arnLookupLoopBody src account).getLast? = some .ack ∧
    (arnLookupLoopBody src account).countP LookupEvent.isAck = 1 ∧
    (arnLookupLoopBody src account).countP LookupEvent.isFailurePut
      = (if (getArnsForAccount src).2.isSome then 1 else 0) ∧
    (arnLookupLoopBody src account).filterMap LookupEvent.arnOf
      = (getArnsForAccount src).1 ∧
    (∀ rs e, src.conn = none → src.roles = .ok rs → src.users = .error e →
        getArnsForAccount src = (rs, some e)) ∧
    (∀ rs us pp e, src.conn = none → src.roles = .ok rs →
        src.users = .ok us → src.policyPages = (pp, some e) →
        getArnsForAccount src = (rs ++ us ++ pp.flatten, some e)) ∧
    (∀ rs us pp gp, src.conn = none → src.roles = .ok rs →
        src.users = .ok us → src.policyPages = (pp, none) →
        src.groupPages = gp →
        getArnsForAccount src
          = (rs ++ us ++ pp.flatten ++ gp.1.flatten, gp.2)) := by
  refine ⟨?_, ?_, ?_, ?_, ?_, ?_, ?_⟩
  · cases h : (getArnsForAccount src).2 <;>
      simp [arnLookupLoopBody, h, getLast?_append_singleton]
  · cases h : (getArnsForAccount src).2 <;>
      simp [arnLookupLoopBody, h, List.countP_append, List.countP_cons,
        countP_isAck_map_putArn, LookupEvent.isAck]
  · cases h : (getArnsForAccount src).2 <;>
      simp [arnLookupLoopBody, h, List.countP_append, List.countP_cons,
        countP_isFailurePut_map_putArn, LookupEvent.isFailurePut]
  · cases h : (getArnsForAccount src).2 <;>
      simp [arnLookupLoopBody, h, List.filterMap_append,
        filterMap_arnOf_map_putArn, filterMap_arnOf_comp_putArn,
        LookupEvent.arnOf]
  · intro rs e h1 h2 h3
    obtain ⟨conn, roles, users, ppages, gpages⟩ := src
    simp only at h1 h2 h3
    subst h1; subst h2; subst h3
    rfl
  · intro rs us pp e h1 h2 h3 h4
    obtain ⟨conn, roles, users, ppages, gpages⟩ := src
    simp only at h1 h2 h3 h4
    subst h1; subst h2; subst h3; subst h4
    rfl
  · intro rs us pp gp h1 h2 h3 h4 h5
    obtain ⟨conn, roles, users, ppages, gpages⟩ := src
    simp only at h1 h2 h3 h4 h5
    subst h1; subst h2; subst h3; subst h4; subst h5
    rfl

/-- A concrete run of C6's theorem: the `list_users` call raises after
`list_roles` emitted `"r1"`, so the iteration keeps `"r1"` and reports the
account as the single failure. -/
theorem enumeration_failure_single_event_ack_last_witness :
    getArnsForAccount
        ⟨none, .ok ["r1"], .error (Exc.err "boom"), ([], none), ([], none)⟩
      = (["r1"], some (Exc.err "boom")) := by
  exact (enumeration_failure_single_event_ack_last
    ⟨none, .ok ["r1"], .error (Exc.err "boom"), ([], none), ([], none)⟩
    "111111111111").2.2.2.2.1 ["r1"] (Exc.err "boom") rfl rfl rfl

/-- C7: when account lookup is needed (no explicit ARNs) and the SWAG
collaborator fails, `run` raises exactly the wrapped inventory error before
any worker task is created, so no stage worker ever runs; with explicit ARNs
or a working inventory, `run` returns normally with every collected failure
logged — recorded per-item failures never make it raise. -/
theorem seeding_failure_fatal_other_runs_return (inp : RunInput)
    (collected : List FailureItem) :
    (∀ e, inp.arns = [] → inp.inventory = .error e →
        runModel inp collected = .error (.swagException e) ∧
        tasksStarted (runModel inp collected) = 0) ∧
    (∀ l, inp.inventory = .ok l →
        ∃ s, runModel inp collected = .ok ⟨s, collected⟩) ∧
    (inp.arns ≠ [] →
        ∃ s, runModel inp collected = .ok ⟨s, collected⟩) := by
  refine ⟨?_, ?_, ?_⟩
  · intro e harns hinv
    have hsetup : runSetup inp = .error (.swagException e) := by
      cases hacc : inp.accounts.isEmpty <;>
        simp [runSetup, harns, hacc, queueAccounts, queueAllAccounts,
          getSwagAccounts, hinv]
    refine ⟨by simp [runModel, hsetup], by simp [runModel, hsetup, tasksStarted]⟩
  · intro l hinv
    cases harns : inp.arns with
    | nil =>
        cases hacc : inp.accounts with
        | nil =>
            exact ⟨⟨[], l.map (fun a => a.id), inp.numWorkers,
                inp.numWorkers, inp.numWorkers⟩,
              by simp [runModel, runSetup, harns, hacc, queueAllAccounts,
                getSwagAccounts, hinv]⟩
        | cons a rest =>
            exact ⟨⟨[], (queueLiteralIds 0 inp.accounts []).2
                ++ queueMatchingAccounts l (queueLiteralIds 0 inp.accounts []).1,
                inp.numWorkers, inp.numWorkers, inp.numWorkers⟩,
              by simp [runModel, runSetup, harns, hacc, queueAccounts,
                getSwagAccounts, hinv]⟩
    | cons a rest =>
        exact ⟨⟨inp.arns, [], 0, inp.numWorkers, inp.numWorkers⟩,
          by simp [runModel, runSetup, harns]⟩
  · intro harns
    cases h' : inp.arns with
    | nil => exact absurd h' harns
    | cons a rest =>
        exact ⟨⟨inp.arns, [], 0, inp.numWorkers, inp.numWorkers⟩,
          by simp [runModel, runSetup, h']⟩

/-- A concrete run of C7's theorem: with no ARNs and a failing inventory,
`run` raises the wrapped SWAG error and zero worker tasks were created. -/
theorem seeding_failure_fatal_other_runs_return_witness :
    runModel ⟨[], [], .error .clientError, 2⟩ []
      = .error (.swagException .clientError) ∧
    tasksStarted (runModel ⟨[], [], .error .clientError, 2⟩ []) = 0 := by
  exact (seeding_failure_fatal_other_runs_return
    ⟨[], [], .error .clientError, 2⟩ []).1 .clientError rfl rfl

/-- C8 (counterexample): a run requesting one unknown account name against
an empty inventory queues no account at all, yet the ARN-lookup
(enumeration) worker pool is still launched with the full pool size — the
launch condition is only that no explicit ARNs were supplied, not that
accounts were actually queued. -/
theorem lookup_workers_launched_without_queued_accounts :
    runSetup ⟨["no-such-name"], [], .ok [], 3⟩ = .ok ⟨[], [], 3, 3, 3⟩ ∧
    RunSetup.accountQueueInit ⟨[], [], 3, 3, 3⟩ = [] ∧
    0 < RunSetup.arnLookupWorkers ⟨[], [], 3, 3, 3⟩ := by
  refine ⟨?_, rfl, by decide⟩
  simp +decide [runSetup, queueAccounts, getSwagAccounts, queueLiteralIds,
    queueMatchingAccounts]

/-- C8 (amended): the ARN-lookup worker pool is launched (with the full
configured pool size) exactly when no explicit ARNs were supplied — in
particular never when explicit identifiers are given — while the retriever
and results pools are always launched with the configured size. -/
theorem lookup_workers_iff_no_arns (inp : RunInput) (s : RunSetup)
    (h : runSetup inp = .ok s) :
    s.arnLookupWorkers = (if inp.arns.isEmpty then inp.numWorkers else 0) ∧
    s.retrieverWorkers = inp.numWorkers ∧
    s.resultsWorkers = inp.numWorkers ∧
    (inp.arns ≠ [] → s.arnLookupWorkers = 0) := by
  cases harns : inp.arns with
  | nil =>
      cases hq :
          (if !inp.accounts.isEmpty then queueAccounts inp.accounts inp.inventory
           else queueAllAccounts inp.inventory) with
      | error e =>
          rw [runSetup, harns] at h
          simp only [List.isEmpty_nil, if_true] at h
          rw [hq] at h
          simp at h
      | ok accQ =>
          rw [runSetup, harns] at h
          simp only [List.isEmpty_nil, if_true] at h
          rw [hq] at h
          simp only [Except.ok.injEq] at h
          rw [← h]
          simp [harns]
  | cons a rest =>
      rw [runSetup, harns] at h
      simp only [List.isEmpty_cons, if_false, Bool.false_eq_true] at h
      simp only [Except.ok.injEq] at h
      rw [← h]
      simp [harns]

/-- A concrete run of C8's amended theorem: with explicit ARNs, zero
ARN-lookup workers and full retriever/results pools. -/
theorem lookup_workers_iff_no_arns_witness :
    RunSetup.arnLookupWorkers ⟨["arn:x"], [], 0, 2, 2⟩
      = (if List.isEmpty ["arn:x"] then 2 else 0) ∧
    RunSetup.retrieverWorkers ⟨["arn:x"], [], 0, 2, 2⟩ = 2 ∧
    RunSetup.resultsWorkers ⟨["arn:x"], [], 0, 2, 2⟩ = 2 ∧
    (["arn:x"] ≠ ([] : List String) →
      RunSetup.arnLookupWorkers ⟨["arn:x"], [], 0, 2, 2⟩ = 0) := by
  exact lookup_workers_iff_no_arns ⟨[], ["arn:x"], .ok [], 2⟩
    ⟨["arn:x"], [], 0, 2, 2⟩ rfl

theorem pipeInv_init (s : PipeState) (h : InitState s) : PipeInv s := by
  obtain ⟨h1, h2, h3, h4, h5⟩ := h
  refine ⟨fun hx => ?_, fun hx => ?_, fun hx => ?_⟩ <;>
    (rw [h5] at hx; simp [Pc.rank] at hx)

theorem pipeInv_step {s t : PipeState} (hst : Step s t) (h : PipeInv s) :
    PipeInv t := by
  obtain ⟨ha, hb, hc⟩ := h
  cases hst with
  | accGet a rest heq =>
      refine ⟨fun hr => ?_, fun hr => hb hr, fun hr => hc hr⟩
      have h1 := (ha hr).1
      rw [heq] at h1
      simp at h1
  | accDone l₁ a l₂ heq =>
      refine ⟨fun hr => ?_, fun hr => ?_, fun hr => hc hr⟩
      · have h1 := (ha hr).2
        rw [heq] at h1
        simp at h1
      · have h1 := (ha (le_trans one_le_two hr)).2
        rw [heq] at h1
        simp at h1
  | arnGet b rest heq =>
      refine ⟨fun hr => ha hr, fun hr => ?_, fun hr => hc hr⟩
      have h1 := (hb hr).1
      rw [heq] at h1
      simp at h1
  | arnDone l₁ b l₂ heq =>
      refine ⟨fun hr => ha hr, fun hr => ?_, fun hr => ?_⟩
      · have h1 := (hb hr).2
        rw [heq] at h1
        simp at h1
      · have h1 := (hb (le_trans (by norm_num) hr)).2
        rw [heq] at h1
        simp at h1
  | resGet hlt =>
      refine ⟨fun hr => ha hr, fun hr => hb hr, fun hr => ?_⟩
      exfalso
      have h1 := (hc hr).1
      omega
  | resDone hlt =>
      refine ⟨fun hr => ha hr, fun hr => hb hr, fun hr => ?_⟩
      exfalso
      have h1 := (hc hr).2
      omega
  | joinAcc hpc hp hi =>
      exact ⟨fun _ => ⟨hp, hi⟩, fun hr => absurd hr (by simp [Pc.rank]),
        fun hr => absurd hr (by simp [Pc.rank])⟩
  | joinArn hpc hp hi =>
      exact ⟨fun _ => ha (by simp [hpc, Pc.rank]), fun _ => ⟨hp, hi⟩,
        fun hr => absurd hr (by simp [Pc.rank])⟩
  | joinRes hpc hp hi =>
      exact ⟨fun _ => ha (by simp [hpc, Pc.rank]),
        fun _ => hb (by simp [hpc, Pc.rank]), fun _ => ⟨hp, hi⟩⟩
  | cancelWorkers hpc =>
      exact ⟨fun _ => ha (by simp [hpc, Pc.rank]),
        fun _ => hb (by simp [hpc, Pc.rank]),
        fun _ => hc (by simp [hpc, Pc.rank])⟩
  | finishRun hpc =>
      exact ⟨fun _ => ha (by simp [hpc, Pc.rank]),
        fun _ => hb (by simp [hpc, Pc.rank]),
        fun _ => hc (by simp [hpc, Pc.rank])⟩

theorem pipeInv_reachable {s0 s : PipeState} (h0 : InitState s0)
    (hr : Reachable s0 s) : PipeInv s := by
  have hr' : Relation.ReflTransGen Step s0 s := hr
  clear hr
  induction hr' with
  | refl => exact pipeInv_init s0 h0
  | tail _ hstep ih => exact pipeInv_step hstep ih

theorem step_pc_transition {s t : PipeState} (hst : Step s t) :
    t.pc = s.pc ∨
    (s.pc = .running ∧ t.pc = .accJoined ∧ accDrained s) ∨
    (s.pc = .accJoined ∧ t.pc = .arnJoined ∧ arnDrained s) ∨
    (s.pc = .arnJoined ∧ t.pc = .resJoined ∧ resDrained s) ∨
    (s.pc = .resJoined ∧ t.pc = .cancelled) ∨
    (s.pc = .cancelled ∧ t.pc = .returned) := by
  cases hst with
  | accGet a rest heq => exact Or.inl rfl
  | accDone l₁ a l₂ heq => exact Or.inl rfl
  | arnGet b rest heq => exact Or.inl rfl
  | arnDone l₁ b l₂ heq => exact Or.inl rfl
  | resGet hlt => exact Or.inl rfl
  | resDone hlt => exact Or.inl rfl
  | joinAcc hpc hp hi => exact Or.inr (Or.inl ⟨hpc, rfl, hp, hi⟩)
  | joinArn hpc hp hi => exact Or.inr (Or.inr (Or.inl ⟨hpc, rfl, hp, hi⟩))
  | joinRes hpc hp hi =>
      exact Or.inr (Or.inr (Or.inr (Or.inl ⟨hpc, rfl, hp, hi⟩)))
  | cancelWorkers hpc =>
      exact Or.inr (Or.inr (Or.inr (Or.inr (Or.inl ⟨hpc, rfl⟩))))
  | finishRun hpc =>
      exact Or.inr (Or.inr (Or.inr (Or.inr (Or.inr ⟨hpc, rfl⟩))))

/-- C9: in every execution from a post-seeding state, once the scheduler has
cancelled the workers or returned, the account, ARN, and results queues all
have zero pending and zero in-flight items; after each `join` the joined
queue is (and stays, so all its downstream puts are already made) drained;
and the only scheduler transitions are, in order, the account-queue join
guarded by its drain, the ARN-queue join guarded by its drain, the
results-queue join guarded by its drain, then cancellation, then return —
so a delayed last item on any queue keeps `run` from proceeding. -/
theorem run_returns_only_after_drains (s0 s : PipeState)
    (h0 : InitState s0) (hr : Reachable s0 s) :
    ((s.pc = .cancelled ∨ s.pc = .returned) →
        accDrained s ∧ arnDrained s ∧ resDrained s) ∧
    (s.pc = .accJoined → accDrained s) ∧
    (s.pc = .arnJoined → accDrained s ∧ arnDrained s) ∧
    (s.pc = .resJoined → accDrained s ∧ arnDrained s ∧ resDrained s) ∧
    (∀ t, Step s t →
      t.pc = s.pc ∨
      (s.pc = .running ∧ t.pc = .accJoined ∧ accDrained s) ∨
      (s.pc = .accJoined ∧ t.pc = .arnJoined ∧ arnDrained s) ∨
      (s.pc = .arnJoined ∧ t.pc = .resJoined ∧ resDrained s) ∨
      (s.pc = .resJoined ∧ t.pc = .cancelled) ∨
      (s.pc = .cancelled ∧ t.pc = .returned)) := by
  obtain ⟨ha, hb, hc⟩ := pipeInv_reachable h0 hr
  refine ⟨?_, ?_, ?_, ?_, fun t hst => step_pc_transition hst⟩
  · rintro (hpc | hpc) <;>
      exact ⟨ha (by simp [hpc, Pc.rank]), hb (by simp [hpc, Pc.rank]),
        hc (by simp [hpc, Pc.rank])⟩
  · intro hpc
    exact ha (by simp [hpc, Pc.rank])
  · intro hpc
    exact ⟨ha (by simp [hpc, Pc.rank]), hb (by simp [hpc, Pc.rank])⟩
  · intro hpc
    exact ⟨ha (by simp [hpc, Pc.rank]), hb (by simp [hpc, Pc.rank]),
      hc (by simp [hpc, Pc.rank])⟩

/-- A concrete run of C9's theorem: one account flows through all three
queues, the three joins fire in order, the scheduler cancels and returns,
and the final state has all queues drained. -/
theorem run_returns_only_after_drains_witness :
    accDrained ⟨[], [], [], [], 0, 0, .returned⟩ ∧
    arnDrained ⟨[], [], [], [], 0, 0, .returned⟩ ∧
    resDrained ⟨[], [], [], [], 0, 0, .returned⟩ := by
  have h0 : InitState ⟨[[true]], [], [], [], 0, 0, .running⟩ :=
    ⟨rfl, rfl, rfl, rfl, rfl⟩
  have hreach : Reachable ⟨[[true]], [], [], [], 0, 0, .running⟩
      ⟨[], [], [], [], 0, 0, .returned⟩ :=
    Relation.ReflTransGen.tail
      (Relation.ReflTransGen.tail
        (Relation.ReflTransGen.tail
          (Relation.ReflTransGen.tail
            (Relation.ReflTransGen.tail
              (Relation.ReflTransGen.tail
                (Relation.ReflTransGen.tail
                  (Relation.ReflTransGen.tail
                    (Relation.ReflTransGen.tail
                      (Relation.ReflTransGen.tail
                        (Relation.ReflTransGen.tail
                          (Relation.ReflTransGen.refl)
                          (Step.accGet _ [true] [] rfl))
                        (Step.accDone _ [] [true] [] rfl))
                      (Step.arnGet _ true [] rfl))
                    (Step.arnDone _ [] true [] rfl))
                  (Step.resGet _ (by decide)))
                (Step.resDone _ (by decide)))
              (Step.joinAcc _ rfl rfl rfl))
            (Step.joinArn _ rfl rfl rfl))
          (Step.joinRes _ rfl rfl rfl))
        (Step.cancelWorkers _ rfl))
      (Step.finishRun _ rfl)
  exact (run_returns_only_after_drains _ _ h0 hreach).1 (Or.inr rfl)

end Aardvark
